import Mathlib

/-!
Verification of the `system_snapshot` process-inventory tool
(`decorators.py`, `snapshot.py`, `test_decorators.py`).

The post-processing pipeline is a chain of Python decorators:
error suppression (`suppress_errors`), current-user filtering
(`filter_by_current_user`), field-based sorting (`sort_processes`),
result capping (`max_listing`) and snapshot logging (`log_processes`).
Process records are Python dictionaries mapping string keys to
heterogeneous values; we embed them as association lists over a small
universe `PyVal` of the value shapes that actually occur (ints, floats,
strings, lists of strings, `None`).  Python floats are embedded as
rationals: every claim below only compares values, so exact rational
arithmetic is faithful.  Exceptions are embedded as `Except` values
tagged with an exception kind.
-/

set_option maxRecDepth 4000

namespace SystemSnapshot

/-- Universe of Python values stored in a process-info dictionary. -/
inductive PyVal where
  | int (n : ℤ)
  | float (q : ℚ)
  | str (s : String)
  | strList (l : List String)
  | none
deriving DecidableEq, Repr

/-- A process-info dictionary (`process.as_dict(...)` plus `phys_mem`):
an association list from attribute name to value, looked up first-match
like a Python `dict`. -/
abbrev Proc := List (String × PyVal)

/-- `proc.get(key, default)`: first binding of `key`, else `default`. -/
def Proc.get (p : Proc) (key : String) (default : PyVal) : PyVal :=
  match p.find? (fun kv => kv.1 == key) with
  | some kv => kv.2
  | Option.none => default

/-- Exception kinds appearing in the program: the classes named in
`DEFAULT_SUPPRESS`, in the `@suppress_errors(...)` application in
`snapshot.py`, in the tests, and the kinds the broken logging stage
raises at runtime. -/
inductive ExcKind where
  | permissionError
  | accessDenied
  | noSuchProcess
  | zombieProcess
  | valueError
  | typeError
  | unsupportedOperation
deriving DecidableEq, Repr

/-- A raised Python exception: its class and its message. -/
structure PyErr where
  kind : ExcKind
  msg : String
deriving DecidableEq, Repr

/-- `DEFAULT_SUPPRESS = (PermissionError, psutil.AccessDenied,
psutil.NoSuchProcess)` from `decorators.py`. -/
def DEFAULT_SUPPRESS : List ExcKind :=
  [ExcKind.permissionError, ExcKind.accessDenied, ExcKind.noSuchProcess]

/-- The `try/except` body of `suppress_errors_wrapper`: run the wrapped
function; if it raises an exception whose class is among
`exception_types`, print a diagnostic and return `[]`; otherwise let the
exception propagate.  (The configured sets in this repository consist of
unrelated leaf exception classes, so `except exception_types` matching
is class membership.) -/
def suppress_errors_wrapper {σ : Type} (exception_types : List ExcKind)
    (func : σ → Except PyErr (List Proc)) (x : σ) : Except PyErr (List Proc) :=
  match func x with
  | Except.ok v => Except.ok v
  | Except.error e =>
      if e.kind ∈ exception_types then Except.ok [] else Except.error e

/-- The decorator factory `suppress_errors(*exception_types)`:
`if not exception_types: exception_types = DEFAULT_SUPPRESS`, then wrap
`func` with `suppress_errors_wrapper`. -/
def suppress_errors {σ : Type} (exception_types : List ExcKind)
    (func : σ → Except PyErr (List Proc)) : σ → Except PyErr (List Proc) :=
  suppress_errors_wrapper
    (if exception_types.isEmpty then DEFAULT_SUPPRESS else exception_types) func

/-! ### The sort stage (`sort_processes`) -/

/-- `item_getter(proc)` from `sort_processes_wrapper`:
`sort_field = proc.get(field, 0)`, and if the value is a Python `list`
it is replaced by `" ".join(sort_field)`. -/
def item_getter (field : String) (proc : Proc) : PyVal :=
  match Proc.get proc field (PyVal.int 0) with
  | PyVal.strList l => PyVal.str (String.intercalate " " l)
  | v => v

/-- Python `a < b` on sort keys: defined (as a `Bool`) for two numbers or
two strings, a `TypeError` (`Option.none`) otherwise.  Python compares
`int` and `float` by exact value, and strings lexicographically by code
point, which is exactly `String < String` here. -/
def pyLt : PyVal → PyVal → Option Bool
  | PyVal.int m, PyVal.int n => some (decide (m < n))
  | PyVal.int m, PyVal.float q => some (decide ((m : ℚ) < q))
  | PyVal.float p, PyVal.int n => some (decide (p < (n : ℚ)))
  | PyVal.float p, PyVal.float q => some (decide (p < q))
  | PyVal.str s, PyVal.str t => some (decide (s < t))
  | _, _ => Option.none

/-- Two keys are comparable when Python `<` is defined on them. -/
def comparable (a b : PyVal) : Bool := (pyLt a b).isSome

/-- All pairs of keys drawn from the list are mutually comparable, i.e.
no comparison performed by `list.sort` can raise `TypeError`. -/
def mutuallyComparable : List PyVal → Bool
  | [] => true
  | k :: ks => ks.all (fun x => comparable k x) && mutuallyComparable ks

/-- A key is a Python number (`int` or `float`). -/
def isNumeric : PyVal → Bool
  | PyVal.int _ => true
  | PyVal.float _ => true
  | _ => false

/-- Class rank used to extend the Python key order to a total order on
all of `PyVal` (the extension is never observed on a comparable list). -/
def PyVal.rank : PyVal → ℕ
  | PyVal.int _ => 0
  | PyVal.float _ => 0
  | PyVal.str _ => 1
  | PyVal.strList _ => 2
  | PyVal.none => 3

/-- Numeric value of a key (`0` outside the numeric class). -/
def PyVal.numVal : PyVal → ℚ
  | PyVal.int n => (n : ℚ)
  | PyVal.float q => q
  | _ => 0

/-- String value of a key (`""` outside the string class). -/
def PyVal.strVal : PyVal → String
  | PyVal.str s => s
  | PyVal.strList l => String.intercalate " " l
  | _ => ""

/-- Total extension of Python `a <= b` on sort keys: lexicographic on
(class rank, numeric value, string value).  On two numbers it is exactly
`numVal a <= numVal b` and on two strings exactly `strVal a <= strVal b`,
i.e. it agrees with Python on every comparable pair. -/
def keyLe (a b : PyVal) : Bool :=
  decide (a.rank < b.rank ∨
    (a.rank = b.rank ∧ (a.numVal < b.numVal ∨
      (a.numVal = b.numVal ∧ a.strVal ≤ b.strVal))))

/-- The comparator `list.sort(key=item_getter, reverse=reverse)` sorts
by: ascending key order, or descending when `reverse`.  Python's sort is
stable in both directions (for `reverse=True` ties also keep their
original relative order). -/
def procLe (field : String) (reverse : Bool) (p q : Proc) : Bool :=
  if reverse then keyLe (item_getter field q) (item_getter field p)
  else keyLe (item_getter field p) (item_getter field q)

/-- Diagnostics printed by the stages (modelled structurally). -/
inductive Diag where
  | sortedMsg (n : ℕ) (field : String) (descending : Bool)
  | sortTypeError (field : String)
deriving DecidableEq, Repr

/-! #### What a failed in-place `list.sort` leaves behind

`processes.sort(...)` sorts the list object in place; when a key
comparison raises `TypeError` the object is left in its partially
reordered state — CPython restores the array exactly as the aborted sort
left it, it does not roll back.  The claims only exercise this path on
small snapshots, for which CPython's algorithm is: compute all keys;
if `reverse`, reverse the array; find the initial run (`count_run`,
reversing a strictly descending run in place); then binary-insert each
remaining element into the sorted prefix (`binarysort` — for fewer than
64 elements `minrun` spans the whole list, so no merge ever runs); on a
raising comparison stop where the array stands; if `reverse`, reverse
the array again on the way out (CPython reverses on both the success and
the failure path). -/

/-- `ISLT(b, a)` as performed by `list.sort`: the Python comparison
`key(b) < key(a)` on the extracted keys; `Option.none` is a raised
`TypeError`. -/
def keyLt (field : String) (b a : Proc) : Option Bool :=
  pyLt (item_getter field b) (item_getter field a)

/-- Extend an ascending run: keep taking elements while
`ISLT(next, cur)` is false; stop at the first `true`; a raised
comparison (`Option.none`) aborts the whole sort with nothing moved. -/
def ascRun (field : String) : Proc → List Proc → Option (List Proc × List Proc)
  | a, [] => some ([a], [])
  | a, b :: rest =>
      match keyLt field b a with
      | Option.none => Option.none
      | some true => some ([a], b :: rest)
      | some false =>
          match ascRun field b rest with
          | Option.none => Option.none
          | some (run, r2) => some (a :: run, r2)

/-- Extend a strictly descending run: keep taking elements while
`ISLT(next, cur)` is true; stop at the first `false`. -/
def descRun (field : String) : Proc → List Proc → Option (List Proc × List Proc)
  | a, [] => some ([a], [])
  | a, b :: rest =>
      match keyLt field b a with
      | Option.none => Option.none
      | some true =>
          match descRun field b rest with
          | Option.none => Option.none
          | some (run, r2) => some (a :: run, r2)
      | some false => some ([a], b :: rest)

/-- `count_run`: the initial maximal ascending run, or the initial
maximal strictly descending run reversed in place.  Returns the run (in
ascending order) and the untouched remainder; `Option.none` means a
comparison raised before anything moved. -/
def count_run (field : String) : List Proc → Option (List Proc × List Proc)
  | [] => some ([], [])
  | [a] => some ([a], [])
  | a :: b :: rest =>
      match keyLt field b a with
      | Option.none => Option.none
      | some true =>
          match descRun field b rest with
          | Option.none => Option.none
          | some (run, r2) => some ((a :: run).reverse, r2)
      | some false =>
          match ascRun field b rest with
          | Option.none => Option.none
          | some (run, r2) => some (a :: run, r2)

/-- The position `binarysort` computes for pivot `x` in the sorted
prefix `P`: its binary search returns the boundary of the elements `p`
with `not ISLT(x, p)` — on the class-pure prefixes that arise, the
number of elements whose key is `keyLe` the pivot's (the pivot lands
after its ties, which is what makes the insertion stable). -/
def binaryInsertPos (field : String) (x : Proc) (P : List Proc) : ℕ :=
  P.countP (fun p => keyLe (item_getter field p) (item_getter field x))

/-- Insert `x` at position `n`. -/
def insertIdxAt (l : List Proc) (n : ℕ) (x : Proc) : List Proc :=
  l.take n ++ x :: l.drop n

/-- `binarysort`: insert each remaining element into the sorted prefix
by binary search.  The prefix is class-pure (it was built from
successful comparisons), so the binary search raises exactly when the
pivot is incomparable with the prefix elements — the first probe already
raises, nothing has moved for this element, and the array is left as
`prefix ++ pivot :: rest` (`Except.error`). -/
def binarysort (field : String) : List Proc → List Proc → Except (List Proc) (List Proc)
  | P, [] => Except.ok P
  | P, x :: rest =>
      if P.all (fun p => comparable (item_getter field x) (item_getter field p)) then
        binarysort field (insertIdxAt P (binaryInsertPos field x P) x) rest
      else
        Except.error (P ++ x :: rest)

/-- The array state carried by either outcome. -/
def sortResultState : Except (List Proc) (List Proc) → List Proc
  | Except.ok st => st
  | Except.error st => st

/-- The record order `processes.sort(key=item_getter, reverse=reverse)`
leaves in the list object when a comparison raises `TypeError`: reverse
if `reverse`, run `count_run` (a raise there leaves the array untouched)
then `binarysort` until the raising comparison, and reverse again if
`reverse`. -/
def failedSortState (field : String) (reverse : Bool)
    (processes : List Proc) : List Proc :=
  let arr := if reverse then processes.reverse else processes
  let st :=
    match count_run field arr with
    | Option.none => arr
    | some (run, rest) => sortResultState (binarysort field run rest)
  if reverse then st.reverse else st

/-- Body of `sort_processes_wrapper` on the list returned by the wrapped
function: `processes.sort(key=item_getter, reverse=reverse)` inside
`try`, printing a success diagnostic; on `TypeError` (some executed
comparison hit incomparable keys, which happens exactly when the keys
are not mutually comparable) the error diagnostic is printed and the
list is returned as the aborted in-place sort left it
(`failedSortState` — possibly partially reordered, not necessarily the
incoming order).  On the success path Python's stable sort is embedded
as `List.mergeSort` with the total comparator `procLe`; on a mutually
comparable list both produce the unique stable ordering. -/
def sort_processes_wrapper (field : String) (reverse : Bool)
    (processes : List Proc) : List Proc × List Diag :=
  if mutuallyComparable (processes.map (item_getter field)) then
    (processes.mergeSort (procLe field reverse),
      [Diag.sortedMsg processes.length field reverse])
  else
    (failedSortState field reverse processes, [Diag.sortTypeError field])

/-! ### The cap stage (`max_listing`) -/

/-- Body of `max_listing_wrapper` on the list returned by the wrapped
function: `limited_processes = processes[:max_count]` (a fresh list of
the first `max_count` elements — the count is a non-negative size). -/
def max_listing_wrapper (max_count : ℕ) (processes : List Proc) : List Proc :=
  processes.take max_count

/-! ### The user-filter stage -/

/-- Modelled from the spec: `filter_by_current_user` in
`decorators.py` is an unfinished stub (its body `current_user =` does
not parse), so the stage is modelled from spec §4.3/§8: keep exactly the
records whose `username` equals the current user's name, in input order;
a record with an absent (`None`) username never matches. -/
def filter_by_current_user_spec (current_user : String)
    (processes : List Proc) : List Proc :=
  processes.filter
    (fun p => Proc.get p "username" PyVal.none == PyVal.str current_user)

/-! ### The logging stage -/

/-- Content of the snapshot log file. -/
structure FileState where
  content : String
deriving DecidableEq, Repr

/-- A file opened in Python: its mode and the data visible to reads. -/
structure OpenFile where
  writable : Bool
  data : String
deriving DecidableEq, Repr

/-- `open(filename, "w")`: truncates the file and yields a write-only
handle. -/
def openWrite (_fs : FileState) : FileState × OpenFile :=
  ({ content := "" }, { writable := true, data := "" })

/-- `f.read()`: returns the visible data on a readable handle and raises
`io.UnsupportedOperation: not readable` on a write-only handle. -/
def OpenFile.readAll (f : OpenFile) : Except PyErr String :=
  if f.writable then
    Except.error { kind := ExcKind.unsupportedOperation, msg := "not readable" }
  else Except.ok f.data

/-- Body of the `wrapper` inside `log_processes(filename)`, embedded as
written: it opens the log for writing (truncating it) and reads from
that write-only handle into `processes`; the wrapped function is never
called and nothing is ever written.  Were the read to succeed it would
yield the empty string, the header prints would run, the
`for proc in processes` loop would iterate the characters of that string
(subscripting a character would raise `TypeError`; the empty string
skips the loop), and the bare `return` would produce `None`. -/
def log_processes_wrapper {σ : Type} (_func : σ → Except PyErr (List Proc))
    (fs : FileState) : FileState × Except PyErr (Option (List Proc)) :=
  match openWrite fs with
  | (fs1, f) =>
      match f.readAll with
      | Except.error e => (fs1, Except.error e)
      | Except.ok processes =>
          if processes.isEmpty then (fs1, Except.ok Option.none)
          else (fs1, Except.error
            { kind := ExcKind.typeError
              msg := "string indices must be integers" })

/-- Modelled from the spec: the intended LoggingStage of §4.6/§8 (the
source `log_processes` is defective, see `log_processes_wrapper`): it
passes its input through unchanged and records, in the log, the process
count and one entry per record carrying that record's pid and name. -/
def log_processes_spec (processes : List Proc) :
    List Proc × (ℕ × List (PyVal × PyVal)) :=
  (processes,
    (processes.length,
      processes.map (fun p =>
        (Proc.get p "pid" PyVal.none, Proc.get p "name" PyVal.none))))

/-! ### Pipeline composition -/

/-- The suppression set applied to `get_processes_info` in
`snapshot.py`. -/
def snapshotSuppressSet : List ExcKind :=
  [ExcKind.zombieProcess, ExcKind.permissionError,
   ExcKind.accessDenied, ExcKind.noSuchProcess]

/-- Modelled from the spec: the composed pipeline on a successfully
produced raw snapshot, in the fixed order of §4.7 — UserFilter, then
Sort, then Cap, then Logging (ErrorSuppression sits below, around the
source; see `pipeline`).  `snapshot.py` only applies `suppress_errors`;
the full composition is assembled here from the stage embeddings. -/
def pipelineRun (current_user field : String) (reverse : Bool)
    (max_count : ℕ) (raw : List Proc) :
    List Proc × (ℕ × List (PyVal × PyVal)) :=
  let filtered := filter_by_current_user_spec current_user raw
  let sorted := (sort_processes_wrapper field reverse filtered).1
  let capped := max_listing_wrapper max_count sorted
  log_processes_spec capped

/-- Modelled from the spec: the full pipeline around the raw source,
ErrorSuppression innermost (closest to the source, with the suppression
set used in `snapshot.py`), then the remaining stages via
`pipelineRun`. -/
def pipeline (current_user field : String) (reverse : Bool)
    (max_count : ℕ) (source : Except PyErr (List Proc)) :
    Except PyErr (List Proc × (ℕ × List (PyVal × PyVal))) :=
  match suppress_errors snapshotSuppressSet (fun _ => source) () with
  | Except.error e => Except.error e
  | Except.ok raw => Except.ok (pipelineRun current_user field reverse max_count raw)

/-! ### Physical-memory display (`snapshot.py`) -/

/-- `BYTES_PER_MB = 1024**24` from `print_process_info`. -/
def BYTES_PER_MB : ℕ := 1024 ^ 24

/-- The number shown on the `Physical Memory:` line:
`proc["phys_mem"] / BYTES_PER_MB` (Python true division). -/
def physMemShown (phys_mem : ℕ) : ℚ := (phys_mem : ℚ) / (BYTES_PER_MB : ℚ)

/-! ### Object-level (heap) view of the sort and cap stages

The frame claim is about object identity, so the two cited stages are
also embedded against an explicit heap: a list of list objects addressed
by index. -/

/-- A heap of Python list objects. -/
abbrev Heap := List (List Proc)

/-- Contents of the object at address `a`. -/
def Heap.getA (σ : Heap) (a : ℕ) : List Proc := (σ.get? a).getD []

/-- `processes.sort(key=..., reverse=...)` sorts the list object in
place — the contents at the input address are replaced by the stage
output — and `return processes` returns that same address. -/
def sortStageHeap (field : String) (reverse : Bool) (σ : Heap) (a : ℕ) :
    Heap × ℕ :=
  (σ.set a (sort_processes_wrapper field reverse (σ.getA a)).1, a)

/-- `processes[:max_count]` allocates a fresh list object holding the
stage output; the input object is untouched and the fresh address is
returned. -/
def capStageHeap (max_count : ℕ) (σ : Heap) (a : ℕ) : Heap × ℕ :=
  (σ ++ [max_listing_wrapper max_count (σ.getA a)], σ.length)

/-- A key is a Python string. -/
def isStr : PyVal → Bool
  | PyVal.str _ => true
  | _ => false

/-- The ordering the claims speak about, stated through Python `<` on
the extracted keys: with `reverse` the earlier record's key is not
smaller than the later one's (non-increasing); without `reverse` the
later record's key is not smaller than the earlier one's
(non-decreasing).  On comparable keys `pyLt _ _ = some false` is exactly
the negation of Python `<`. -/
def sortedByField (field : String) (reverse : Bool) (p q : Proc) : Prop :=
  if reverse then pyLt (item_getter field p) (item_getter field q) = some false
  else pyLt (item_getter field q) (item_getter field p) = some false

/-- Records whose sort key is tied with `k` (equal in the key order,
which on numbers means equal numeric value, e.g. `0 == 0.0`). -/
def tiedTo (field : String) (k : PyVal) (p : Proc) : Bool :=
  keyLe (item_getter field p) k && keyLe k (item_getter field p)

/-! ### Order-theoretic facts about the comparators -/

lemma keyLe_trans {a b c : PyVal} (h1 : keyLe a b = true)
    (h2 : keyLe b c = true) : keyLe a c = true := by
  simp only [keyLe, decide_eq_true_eq] at h1 h2 ⊢
  rcases h1 with h1 | ⟨e1, h1'⟩
  · rcases h2 with h2 | ⟨e2, _⟩
    · exact Or.inl (lt_trans h1 h2)
    · exact Or.inl (e2 ▸ h1)
  · rcases h2 with h2 | ⟨e2, h2'⟩
    · exact Or.inl (e1 ▸ h2)
    · refine Or.inr ⟨e1.trans e2, ?_⟩
      rcases h1' with h1' | ⟨f1, h1''⟩
      · rcases h2' with h2' | ⟨f2, _⟩
        · exact Or.inl (lt_trans h1' h2')
        · exact Or.inl (f2 ▸ h1')
      · rcases h2' with h2' | ⟨f2, h2''⟩
        · exact Or.inl (f1 ▸ h2')
        · exact Or.inr ⟨f1.trans f2, le_trans h1'' h2''⟩

lemma keyLe_total (a b : PyVal) : keyLe a b || keyLe b a := by
  simp only [keyLe, Bool.or_eq_true, decide_eq_true_eq]
  rcases lt_trichotomy a.rank b.rank with h | h | h
  · exact Or.inl (Or.inl h)
  · rcases lt_trichotomy a.numVal b.numVal with h' | h' | h'
    · exact Or.inl (Or.inr ⟨h, Or.inl h'⟩)
    · rcases le_total a.strVal b.strVal with h'' | h''
      · exact Or.inl (Or.inr ⟨h, Or.inr ⟨h', h''⟩⟩)
      · exact Or.inr (Or.inr ⟨h.symm, Or.inr ⟨h'.symm, h''⟩⟩)
    · exact Or.inr (Or.inr ⟨h.symm, Or.inl h'⟩)
  · exact Or.inr (Or.inl h)

lemma procLe_trans (field : String) (reverse : Bool) :
    ∀ (a b c : Proc), procLe field reverse a b → procLe field reverse b c →
      procLe field reverse a c := by
  intro a b c h1 h2
  cases reverse <;> simp only [procLe, if_true, if_false, Bool.ite_eq_true_distrib] at *
  · exact keyLe_trans h1 h2
  · exact keyLe_trans h2 h1

lemma procLe_total (field : String) (reverse : Bool) :
    ∀ (a b : Proc), procLe field reverse a b || procLe field reverse b a := by
  intro a b
  cases reverse <;> simp only [procLe, if_true, if_false]
  · exact keyLe_total _ _
  · exact keyLe_total _ _

lemma comparable_cases {a b : PyVal} (h : comparable a b = true) :
    (isNumeric a = true ∧ isNumeric b = true) ∨
      (∃ s t, a = PyVal.str s ∧ b = PyVal.str t) := by
  cases a <;> cases b <;> simp_all [comparable, pyLt, isNumeric]

lemma comparable_symm (a b : PyVal) : comparable a b = comparable b a := by
  cases a <;> cases b <;> simp [comparable, pyLt]

lemma comparable_of_numeric {a b : PyVal} (ha : isNumeric a = true)
    (hb : isNumeric b = true) : comparable a b = true := by
  cases a <;> cases b <;> simp_all [isNumeric, comparable, pyLt]

lemma comparable_of_str {a b : PyVal} (ha : isStr a = true)
    (hb : isStr b = true) : comparable a b = true := by
  cases a <;> cases b <;> simp_all [isStr, comparable, pyLt]

lemma isNumeric_of_comparable {a b : PyVal} (h : comparable a b = true)
    (ha : isNumeric a = true) : isNumeric b = true := by
  cases a <;> cases b <;> simp_all [isNumeric, comparable, pyLt]

lemma isStr_of_comparable {a b : PyVal} (h : comparable a b = true)
    (ha : isStr a = true) : isStr b = true := by
  cases a <;> cases b <;> simp_all [isStr, comparable, pyLt]

lemma pyLt_num {a b : PyVal} (ha : isNumeric a = true) (hb : isNumeric b = true) :
    pyLt a b = some (decide (a.numVal < b.numVal)) := by
  cases a <;> cases b <;> simp_all [isNumeric, pyLt, PyVal.numVal]

lemma keyLe_num {a b : PyVal} (ha : isNumeric a = true) (hb : isNumeric b = true) :
    keyLe a b = decide (a.numVal ≤ b.numVal) := by
  cases a <;> cases b <;>
    simp_all [isNumeric, keyLe, PyVal.rank, PyVal.numVal, PyVal.strVal,
      le_iff_lt_or_eq]

lemma keyLe_str {s t : String} :
    keyLe (PyVal.str s) (PyVal.str t) = decide (s ≤ t) := by
  simp [keyLe, PyVal.rank, PyVal.numVal, PyVal.strVal]

/-- On a comparable pair, `keyLe b a` is exactly the negation of the
Python comparison `a < b`. -/
lemma pyLt_eq_false_of_keyLe {a b : PyVal} (hc : comparable a b = true)
    (h : keyLe b a = true) : pyLt a b = some false := by
  rcases comparable_cases hc with ⟨ha, hb⟩ | ⟨s, t, rfl, rfl⟩
  · rw [pyLt_num ha hb]
    rw [keyLe_num hb ha, decide_eq_true_eq] at h
    simp [not_lt.mpr h]
  · rw [keyLe_str, decide_eq_true_eq] at h
    simp [pyLt, not_lt.mpr h]

lemma sortedByField_of_procLe {field : String} {reverse : Bool} {p q : Proc}
    (hc : comparable (item_getter field p) (item_getter field q) = true)
    (h : procLe field reverse p q = true) : sortedByField field reverse p q := by
  cases reverse <;> simp only [procLe, sortedByField, if_true, if_false] at h ⊢
  · exact pyLt_eq_false_of_keyLe ((comparable_symm _ _).symm.trans hc) h
  · exact pyLt_eq_false_of_keyLe hc h

/-! ### Structure of mutually comparable key lists -/

lemma mutuallyComparable_head {k : PyVal} {ks : List PyVal}
    (h : mutuallyComparable (k :: ks) = true) :
    (∀ x ∈ ks, comparable k x = true) ∧ mutuallyComparable ks = true := by
  simp only [mutuallyComparable, Bool.and_eq_true, List.all_eq_true] at h
  exact h

/-- A mutually comparable key list is trivial, all numeric, or all
string: exactly the lists `list.sort` orders without a `TypeError`. -/
lemma mutuallyComparable_classes {ks : List PyVal}
    (h : mutuallyComparable ks = true) :
    ks.length ≤ 1 ∨ (∀ k ∈ ks, isNumeric k = true) ∨
      (∀ k ∈ ks, isStr k = true) := by
  match ks with
  | [] => exact Or.inl (by simp)
  | [k] => exact Or.inl (by simp)
  | k :: k2 :: ks =>
    obtain ⟨hall, -⟩ := mutuallyComparable_head h
    have hk2 : comparable k k2 = true := hall k2 (by simp)
    rcases comparable_cases hk2 with ⟨hk, -⟩ | ⟨s, t, rfl, rfl⟩
    · refine Or.inr (Or.inl ?_)
      intro x hx
      rcases List.mem_cons.mp hx with rfl | hx
      · exact hk
      · exact isNumeric_of_comparable (hall x hx) hk
    · refine Or.inr (Or.inr ?_)
      intro x hx
      rcases List.mem_cons.mp hx with rfl | hx
      · rfl
      · exact isStr_of_comparable (hall x hx) rfl

/-- Any two keys of a mutually comparable list of length at least two
are comparable (in particular any two keys of the sorted output). -/
lemma comparable_of_mem {ks : List PyVal} {a b : PyVal}
    (h : mutuallyComparable ks = true) (hlen : 2 ≤ ks.length)
    (ha : a ∈ ks) (hb : b ∈ ks) : comparable a b = true := by
  rcases mutuallyComparable_classes h with hl | hnum | hstr
  · omega
  · exact comparable_of_numeric (hnum a ha) (hnum b hb)
  · exact comparable_of_str (hstr a ha) (hstr b hb)

/-! ### Behaviour of the sort stage -/

/-- An ascending run plus its remainder is exactly the incoming list:
`ascRun` moves nothing. -/
lemma ascRun_eq (field : String) (l : List Proc) :
    ∀ (a : Proc) (run r2 : List Proc),
    ascRun field a l = some (run, r2) → run ++ r2 = a :: l := by
  induction l with
  | nil =>
    intro a run r2 h
    simp only [ascRun, Option.some.injEq, Prod.mk.injEq] at h
    rw [← h.1, ← h.2]
    rfl
  | cons b l ih =>
    intro a run r2 h
    simp only [ascRun] at h
    split at h
    · exact absurd h (by simp)
    · simp only [Option.some.injEq, Prod.mk.injEq] at h
      rw [← h.1, ← h.2]
      rfl
    · split at h
      · exact absurd h (by simp)
      · rename_i run2 r3 heq
        simp only [Option.some.injEq, Prod.mk.injEq] at h
        rw [← h.1, ← h.2, List.cons_append, ih b run2 r3 heq]

/-- A strictly descending run plus its remainder is exactly the incoming
list: `descRun` moves nothing (the reversal happens in `count_run`). -/
lemma descRun_eq (field : String) (l : List Proc) :
    ∀ (a : Proc) (run r2 : List Proc),
    descRun field a l = some (run, r2) → run ++ r2 = a :: l := by
  induction l with
  | nil =>
    intro a run r2 h
    simp only [descRun, Option.some.injEq, Prod.mk.injEq] at h
    rw [← h.1, ← h.2]
    rfl
  | cons b l ih =>
    intro a run r2 h
    simp only [descRun] at h
    split at h
    · exact absurd h (by simp)
    · split at h
      · exact absurd h (by simp)
      · rename_i run2 r3 heq
        simp only [Option.some.injEq, Prod.mk.injEq] at h
        rw [← h.1, ← h.2, List.cons_append, ih b run2 r3 heq]
    · simp only [Option.some.injEq, Prod.mk.injEq] at h
      rw [← h.1, ← h.2]
      rfl

/-- `count_run` permutes nothing away: the run and the remainder
together are the incoming list (the run possibly reversed). -/
lemma count_run_perm (field : String) {l run r2 : List Proc}
    (h : count_run field l = some (run, r2)) : (run ++ r2).Perm l := by
  match l with
  | [] =>
    simp only [count_run, Option.some.injEq, Prod.mk.injEq] at h
    rw [← h.1, ← h.2]
    exact List.Perm.refl _
  | [a] =>
    simp only [count_run, Option.some.injEq, Prod.mk.injEq] at h
    rw [← h.1, ← h.2]
    exact List.Perm.refl _
  | a :: b :: l =>
    simp only [count_run] at h
    split at h
    · exact absurd h (by simp)
    · split at h
      · exact absurd h (by simp)
      · rename_i run2 r3 heq
        simp only [Option.some.injEq, Prod.mk.injEq] at h
        rw [← h.1, ← h.2]
        have hd : run2 ++ r3 = b :: l := descRun_eq field l b run2 r3 heq
        have he : (a :: run2) ++ r3 = a :: b :: l := by
          rw [List.cons_append, hd]
        exact he ▸ (((a :: run2).reverse_perm).append_right r3)
    · split at h
      · exact absurd h (by simp)
      · rename_i run2 r3 heq
        simp only [Option.some.injEq, Prod.mk.injEq] at h
        rw [← h.1, ← h.2, List.cons_append, ascRun_eq field l b run2 r3 heq]

/-- Inserting at any position is a permutation with consing. -/
lemma insertIdxAt_perm (l : List Proc) (n : ℕ) (x : Proc) :
    (insertIdxAt l n x).Perm (x :: l) := by
  have p : (l.take n ++ x :: l.drop n).Perm (x :: (l.take n ++ l.drop n)) :=
    List.perm_middle
  rw [List.take_append_drop] at p
  exact p

/-- Whether it finishes or a comparison raises, `binarysort` leaves a
permutation of the records it was given. -/
lemma binarysort_perm (field : String) :
    ∀ (rest P : List Proc),
    (sortResultState (binarysort field P rest)).Perm (P ++ rest) := by
  intro rest
  induction rest with
  | nil =>
    intro P
    simp [binarysort, sortResultState]
  | cons x rest ih =>
    intro P
    by_cases hc : (P.all fun p =>
        comparable (item_getter field x) (item_getter field p)) = true
    · rw [show binarysort field P (x :: rest) =
          binarysort field (insertIdxAt P (binaryInsertPos field x P) x) rest by
        simp [binarysort, hc]]
      refine (ih _).trans ?_
      refine ((insertIdxAt_perm P _ x).append_right rest).trans ?_
      exact List.perm_middle.symm
    · rw [show binarysort field P (x :: rest) =
          Except.error (P ++ x :: rest) by simp [binarysort, hc]]
      exact List.Perm.refl _

/-- The state a failed sort leaves behind is a permutation of the
input: the stage loses and duplicates nothing, it only reorders. -/
lemma failedSortState_perm (field : String) (reverse : Bool)
    (processes : List Proc) :
    (failedSortState field reverse processes).Perm processes := by
  have core : ∀ l : List Proc,
      (match count_run field l with
        | Option.none => l
        | some (run, rest) =>
            sortResultState (binarysort field run rest)).Perm l := by
    intro l
    cases hcr : count_run field l with
    | none => simp [hcr]
    | some pr =>
      obtain ⟨run, rest⟩ := pr
      simpa [hcr] using (binarysort_perm field rest run).trans
        (count_run_perm field hcr)
  cases reverse with
  | false => simpa [failedSortState] using core processes
  | true =>
    simp only [failedSortState, if_true]
    refine (List.reverse_perm _).trans ?_
    exact (core processes.reverse).trans (List.reverse_perm processes)

lemma sort_wrapper_out_of_comparable {field : String} {reverse : Bool}
    {processes : List Proc}
    (h : mutuallyComparable (processes.map (item_getter field)) = true) :
    (sort_processes_wrapper field reverse processes).1 =
      processes.mergeSort (procLe field reverse) := by
  simp [sort_processes_wrapper, h]

lemma sort_wrapper_perm (field : String) (reverse : Bool)
    (processes : List Proc) :
    (sort_processes_wrapper field reverse processes).1.Perm processes := by
  by_cases h : mutuallyComparable (processes.map (item_getter field)) = true
  · rw [sort_wrapper_out_of_comparable h]
    exact List.mergeSort_perm processes _
  · rw [show (sort_processes_wrapper field reverse processes).1 =
        failedSortState field reverse processes by
      simp [sort_processes_wrapper, h]]
    exact failedSortState_perm field reverse processes

lemma sort_wrapper_sorted {field : String} {reverse : Bool}
    {processes : List Proc}
    (h : mutuallyComparable (processes.map (item_getter field)) = true) :
    (sort_processes_wrapper field reverse processes).1.Pairwise
      (sortedByField field reverse) := by
  rw [sort_wrapper_out_of_comparable h]
  have hp : (processes.mergeSort (procLe field reverse)).Pairwise
      (fun p q => procLe field reverse p q = true) :=
    List.sorted_mergeSort (procLe_trans field reverse)
      (procLe_total field reverse) processes
  by_cases hlen : 2 ≤ processes.length
  · refine hp.imp_of_mem ?_
    intro a b ha hb hab
    refine sortedByField_of_procLe ?_ hab
    refine comparable_of_mem h (by simpa using hlen) ?_ ?_
    · exact List.mem_map_of_mem _ (List.mem_mergeSort.mp ha)
    · exact List.mem_map_of_mem _ (List.mem_mergeSort.mp hb)
  · match processes, hlen with
    | [], _ => simp
    | [p], _ => simp
    | p :: q :: ps, hlen => exact absurd (by simp) hlen

/-- Stability: for every key-tie class, the sorted output lists exactly
the input's members of that class in their original relative order. -/
lemma sort_wrapper_stable {field : String} {reverse : Bool}
    {processes : List Proc}
    (h : mutuallyComparable (processes.map (item_getter field)) = true)
    (k : PyVal) :
    (sort_processes_wrapper field reverse processes).1.filter
      (tiedTo field k) = processes.filter (tiedTo field k) := by
  rw [sort_wrapper_out_of_comparable h]
  have hsub : List.Sublist (processes.filter (tiedTo field k)) processes :=
    List.filter_sublist _
  have hpw : (processes.filter (tiedTo field k)).Pairwise
      (fun p q => procLe field reverse p q = true) := by
    apply List.pairwise_of_forall_mem_list
    intro a ha b hb
    have ta := (List.mem_filter.mp ha).2
    have tb := (List.mem_filter.mp hb).2
    rw [tiedTo, Bool.and_eq_true] at ta tb
    cases reverse <;> simp only [procLe, if_true, if_false]
    · exact keyLe_trans ta.1 tb.2
    · exact keyLe_trans tb.1 ta.2
  have hsub2 : List.Sublist (processes.filter (tiedTo field k))
      (processes.mergeSort (procLe field reverse)) :=
    List.sublist_mergeSort (procLe_trans field reverse)
      (procLe_total field reverse) hpw hsub
  have h1 : (processes.filter (tiedTo field k)).filter (tiedTo field k) =
      processes.filter (tiedTo field k) :=
    List.filter_eq_self.mpr (fun a ha => (List.mem_filter.mp ha).2)
  have h2 : List.Sublist (processes.filter (tiedTo field k))
      ((processes.mergeSort (procLe field reverse)).filter (tiedTo field k)) :=
    h1 ▸ hsub2.filter _
  have h3 : ((processes.mergeSort (procLe field reverse)).filter
      (tiedTo field k)).length = (processes.filter (tiedTo field k)).length :=
    ((List.mergeSort_perm processes (procLe field reverse)).filter
      (tiedTo field k)).length_eq
  exact (h2.eq_of_length h3.symm).symm

/-- `mergeSort` on a two-element list, by unfolding (used to exhibit the
in-place mutation performed by the sort stage on a concrete heap). -/
lemma mergeSort_pair {α : Type} (le : α → α → Bool) (x y : α) :
    [x, y].mergeSort le = if le x y then [x, y] else [y, x] := by
  rw [List.mergeSort]
  simp [List.splitInTwo_fst, List.splitInTwo_snd, List.merge, List.mergeSort]

/-- A mutually comparable key list arises in particular when every key
is numeric (the situation for `cpu_percent` keys of well-formed
records). -/
lemma mutuallyComparable_of_forall_numeric {ks : List PyVal}
    (h : ∀ k ∈ ks, isNumeric k = true) : mutuallyComparable ks = true := by
  induction ks with
  | nil => rfl
  | cons k ks ih =>
    simp only [mutuallyComparable, Bool.and_eq_true, List.all_eq_true]
    refine ⟨fun x hx => comparable_of_numeric (h k (by simp)) (h x ?_), ih ?_⟩
    · exact List.mem_cons_of_mem _ hx
    · intro x hx
      exact h x (List.mem_cons_of_mem _ hx)

/-! ### Concrete data used by witnesses and counterexamples

`tp1`, `tp2` are the two records of `test_log_processes`; `fp1`–`fp4`
those of `test_filter_by_current_user` (with the resolved current user
written `"me"`); `sp1`–`sp3` the raw snapshot of the spec §8 scenario;
`hb1`, `hb2` a pair of records for the heap-level frame facts;
`px1`-`pxa` (defined with claim C7) a mixed-key snapshot. -/

def tp1 : Proc :=
  [("pid", PyVal.int 1234), ("name", PyVal.str "test.exe"),
   ("cpu_percent", PyVal.float (155/10)), ("memory_percent", PyVal.float (82/10)),
   ("username", PyVal.str "testuser"),
   ("cmdline", PyVal.strList ["test.exe", "--arg"]),
   ("exe", PyVal.str "/path/to/test.exe"), ("phys_mem", PyVal.int 104857600)]

def tp2 : Proc :=
  [("pid", PyVal.int 5678), ("name", PyVal.str "app.exe"),
   ("cpu_percent", PyVal.float (123/10)), ("memory_percent", PyVal.float (57/10)),
   ("username", PyVal.str "admin"),
   ("cmdline", PyVal.strList ["app.exe"]),
   ("exe", PyVal.str "/path/to/app.exe"), ("phys_mem", PyVal.int 52428800)]

def fp1 : Proc :=
  [("name", PyVal.str "my_process.exe"), ("username", PyVal.str "me"),
   ("cpu_percent", PyVal.int 10)]

def fp2 : Proc :=
  [("name", PyVal.str "other_process.exe"), ("username", PyVal.str "other_user"),
   ("cpu_percent", PyVal.int 15)]

def fp3 : Proc :=
  [("name", PyVal.str "system_process.exe"), ("username", PyVal.none),
   ("cpu_percent", PyVal.int 5)]

def fp4 : Proc :=
  [("name", PyVal.str "my_other.exe"), ("username", PyVal.str "me"),
   ("cpu_percent", PyVal.int 20)]

def sp1 : Proc :=
  [("pid", PyVal.int 1), ("username", PyVal.str "A"),
   ("cpu_percent", PyVal.float 5)]

def sp2 : Proc :=
  [("pid", PyVal.int 2), ("username", PyVal.str "B"),
   ("cpu_percent", PyVal.float 20)]

def sp3 : Proc :=
  [("pid", PyVal.int 3), ("username", PyVal.str "A"),
   ("cpu_percent", PyVal.float 10)]

def hb1 : Proc := [("cpu_percent", PyVal.float 1)]

def hb2 : Proc := [("cpu_percent", PyVal.float 2)]

/-- Raw snapshot for the C1 counterexample: records for two distinct
users, only one of them the current user's. -/
def cx1 : Proc :=
  [("pid", PyVal.int 1), ("name", PyVal.str "p1"),
   ("username", PyVal.str "A"), ("cpu_percent", PyVal.float 5)]

def cx2 : Proc :=
  [("pid", PyVal.int 2), ("name", PyVal.str "p2"),
   ("username", PyVal.str "B"), ("cpu_percent", PyVal.float 20)]

/-! ### Claim C4 — error suppression -/

/-- C4: if the wrapped operation raises an error whose kind is in the
configured suppression set, the wrapper returns the empty list and no
error propagates; an error of any other kind propagates unchanged; and
an empty configuration resolves to the default set
permission-denied / access-denied / process-no-longer-exists. -/
theorem C4_suppression {σ : Type} (exception_types : List ExcKind)
    (func : σ → Except PyErr (List Proc)) (x : σ) (e : PyErr)
    (hne : exception_types ≠ []) (hf : func x = Except.error e) :
    (e.kind ∈ exception_types →
      suppress_errors exception_types func x = Except.ok [])
    ∧ (e.kind ∉ exception_types →
      suppress_errors exception_types func x = Except.error e)
    ∧ (∀ (g : σ → Except PyErr (List Proc)),
      suppress_errors ([] : List ExcKind) g =
        suppress_errors_wrapper DEFAULT_SUPPRESS g)
    ∧ DEFAULT_SUPPRESS =
      [ExcKind.permissionError, ExcKind.accessDenied, ExcKind.noSuchProcess] := by
  have hni : exception_types.isEmpty = false := by
    cases exception_types
    · exact absurd rfl hne
    · rfl
  refine ⟨?_, ?_, fun g => rfl, rfl⟩
  · intro hmem
    simp [suppress_errors, suppress_errors_wrapper, hni, hf, hmem]
  · intro hmem
    simp [suppress_errors, suppress_errors_wrapper, hni, hf, hmem]

/-- Witness for C4: the `test_suppress_errors` call, suppressing a
configured `ValueError`. -/
theorem C4_suppression_witness :
    suppress_errors [ExcKind.valueError, ExcKind.typeError]
      (fun _ : Unit => Except.error ⟨ExcKind.valueError, "Expected error"⟩) ()
      = Except.ok [] :=
  (C4_suppression [ExcKind.valueError, ExcKind.typeError] _ ()
    ⟨ExcKind.valueError, "Expected error"⟩ (by decide) rfl).1 (by decide)

/-! ### Claim C10 — suppression wrapper is the identity on success -/

/-- C10: whenever the wrapped function returns a value without raising,
the suppression wrapper (for any configured set, explicit or defaulted)
returns exactly that value. -/
theorem C10_suppress_passthrough {σ : Type} (exception_types : List ExcKind)
    (func : σ → Except PyErr (List Proc)) (x : σ) (v : List Proc)
    (hf : func x = Except.ok v) :
    suppress_errors exception_types func x = Except.ok v
    ∧ suppress_errors_wrapper exception_types func x = Except.ok v := by
  constructor <;> simp [suppress_errors, suppress_errors_wrapper, hf]

/-- Witness for C10: a successful call passes through untouched. -/
theorem C10_suppress_passthrough_witness :
    suppress_errors ([] : List ExcKind)
      (fun _ : Unit => Except.ok [tp1]) () = Except.ok [tp1] :=
  (C10_suppress_passthrough [] _ () [tp1] rfl).1

/-! ### Claim C5 — the cap stage -/

/-- C5: for every cap `max_count` and input of size `S`, the cap stage
returns exactly the first `min(max_count, S)` input records in order,
and returns the input unchanged when `S ≤ max_count`. -/
theorem C5_cap (max_count : ℕ) (processes : List Proc) :
    (max_listing_wrapper max_count processes).length =
      min max_count processes.length
    ∧ max_listing_wrapper max_count processes =
      processes.take (min max_count processes.length)
    ∧ (processes.length ≤ max_count →
      max_listing_wrapper max_count processes = processes) := by
  refine ⟨List.length_take _ _, ?_, fun h => List.take_of_length_le h⟩
  rcases le_total max_count processes.length with h | h
  · rw [min_eq_left h]
    rfl
  · rw [min_eq_right h, List.take_length]
    exact List.take_of_length_le h

/-- Witness for C5: `test_max_listing_under_limit` (2 records, limit
10). -/
theorem C5_cap_witness : max_listing_wrapper 10 [tp1, tp2] = [tp1, tp2] :=
  (C5_cap 10 [tp1, tp2]).2.2 (by decide)

/-! ### Claim C7 — incomparable sort keys -/

/-- Records with `cpu_percent` keys `2, 1, 3, "a"` — a mixed-type list
on which the aborted in-place sort is visible: `count_run` reverses the
initial descending run `[2, 1]` before the comparison `"a" < 2`
raises. -/
def px2 : Proc := [("cpu_percent", PyVal.int 2)]

def px1 : Proc := [("cpu_percent", PyVal.int 1)]

def px3 : Proc := [("cpu_percent", PyVal.int 3)]

def pxa : Proc := [("cpu_percent", PyVal.str "a")]

/-- C7 counterexample: on the mixed-key snapshot with `cpu_percent`
keys `[2, 1, 3, "a"]` (ascending sort), the stage hits the `TypeError`
branch yet returns the records in order `[1, 2, 3, "a"]` — the aborted
in-place sort reversed the initial descending run — and not the
original input order, refuting the claimed unchanged order. -/
theorem C7_counterexample :
    mutuallyComparable ([px2, px1, px3, pxa].map (item_getter "cpu_percent"))
      = false
    ∧ (sort_processes_wrapper "cpu_percent" false [px2, px1, px3, pxa]).1
        = [px1, px2, px3, pxa]
    ∧ (sort_processes_wrapper "cpu_percent" false [px2, px1, px3, pxa]).1
        ≠ [px2, px1, px3, pxa] := by
  decide

/-- C7 (amended): when the extracted sort keys are not mutually
comparable, the sort stage does not propagate the `TypeError`: it emits
the sort-failure diagnostic and returns the input records as the aborted
in-place sort left them — a permutation of the input, possibly partially
reordered, rather than necessarily the original order. -/
theorem C7_sort_incomparable (field : String) (reverse : Bool)
    (processes : List Proc)
    (h : mutuallyComparable (processes.map (item_getter field)) = false) :
    sort_processes_wrapper field reverse processes =
      (failedSortState field reverse processes, [Diag.sortTypeError field])
    ∧ (sort_processes_wrapper field reverse processes).1.Perm processes := by
  constructor
  · simp [sort_processes_wrapper, h]
  · rw [show (sort_processes_wrapper field reverse processes).1 =
        failedSortState field reverse processes by
      simp [sort_processes_wrapper, h]]
    exact failedSortState_perm field reverse processes

/-- Witness for C7: the mixed-key snapshot, with its hypothesis
discharged by computation. -/
theorem C7_sort_incomparable_witness :
    (sort_processes_wrapper "cpu_percent" false [px2, px1, px3, pxa]).1.Perm
      [px2, px1, px3, pxa] :=
  (C7_sort_incomparable "cpu_percent" false [px2, px1, px3, pxa] (by decide)).2

/-! ### Claim C9 — physical-memory display constant -/

/-- C9: the code's `Physical Memory` line divides by
`BYTES_PER_MB = 1024 ** 24`, not by the conventional binary megabyte
`1024 ** 2`: for the 100 MB record of `test_log_processes`
(`phys_mem = 104857600 = 100 * 1024 ** 2` bytes) it shows
`100 / 1024 ** 22` instead of `100`. -/
theorem C9_phys_mem_display :
    BYTES_PER_MB = 1024 ^ 24
    ∧ physMemShown 104857600 = 100 / 1024 ^ 22
    ∧ physMemShown 104857600 ≠ (104857600 : ℚ) / 1024 ^ 2 := by
  refine ⟨rfl, ?_, ?_⟩ <;> norm_num [physMemShown, BYTES_PER_MB]

/-! ### Claim C2 — the logging stage as implemented -/

/-- C2: the logging wrapper, run on the `test_log_processes` snapshot,
truncates the log and then raises reading its write-only handle: the
final log content is empty (so it contains neither the process count nor
any pid or name), the wrapped function's records are never returned, and
an `io.UnsupportedOperation` propagates. -/
theorem C2_log_code_eval :
    log_processes_wrapper (fun _ : Unit => Except.ok [tp1, tp2])
        { content := "stale" }
      = ({ content := "" },
        Except.error { kind := ExcKind.unsupportedOperation,
                       msg := "not readable" }) := rfl

/-! ### Claim C3 — the user filter (modelled from the spec) -/

/-- C3: the user-filter stage returns exactly the subsequence of records
whose `username` equals the resolved current user — a sublist of the
input (so relative order is preserved), membership is characterised by
the username test, and records with an absent (`None`) username are
always excluded. -/
theorem C3_user_filter (current_user : String) (processes : List Proc) :
    List.Sublist (filter_by_current_user_spec current_user processes) processes
    ∧ (∀ p, p ∈ filter_by_current_user_spec current_user processes ↔
        (p ∈ processes ∧
          Proc.get p "username" PyVal.none = PyVal.str current_user))
    ∧ (∀ p, Proc.get p "username" PyVal.none = PyVal.none →
        p ∉ filter_by_current_user_spec current_user processes) := by
  refine ⟨List.filter_sublist _, ?_, ?_⟩
  · intro p
    simp [filter_by_current_user_spec, List.mem_filter]
  · intro p hnone hmem
    rcases List.mem_filter.mp hmem with ⟨-, heq⟩
    rw [beq_iff_eq, hnone] at heq
    exact PyVal.noConfusion heq

/-- Witness for C3: the `test_filter_by_current_user` snapshot — the
`None`-username record is excluded. -/
theorem C3_user_filter_witness :
    fp3 ∉ filter_by_current_user_spec "me" [fp1, fp2, fp3, fp4] :=
  (C3_user_filter "me" [fp1, fp2, fp3, fp4]).2.2 fp3 (by decide)

/-! ### Claim C6 — sort correctness and stability -/

/-- C6: on mutually comparable keys, the sort stage returns a
permutation of its input, ordered by the chosen field (non-increasing
when descending, non-decreasing otherwise); records with tied keys keep
their original relative order; a list-valued field is compared as its
elements joined into one string; and an absent field yields the default
key `0` instead of failing. -/
theorem C6_sort (field : String) (reverse : Bool) (processes : List Proc)
    (h : mutuallyComparable (processes.map (item_getter field)) = true) :
    (sort_processes_wrapper field reverse processes).1.Perm processes
    ∧ (sort_processes_wrapper field reverse processes).1.Pairwise
        (sortedByField field reverse)
    ∧ (∀ k, (sort_processes_wrapper field reverse processes).1.filter
        (tiedTo field k) = processes.filter (tiedTo field k))
    ∧ (∀ p : Proc, p.find? (fun kv => kv.1 == field) = Option.none →
        item_getter field p = PyVal.int 0)
    ∧ (∀ (p : Proc) (l : List String),
        Proc.get p field (PyVal.int 0) = PyVal.strList l →
        item_getter field p = PyVal.str (String.intercalate " " l)) := by
  refine ⟨sort_wrapper_perm field reverse processes, sort_wrapper_sorted h,
    sort_wrapper_stable h, ?_, ?_⟩
  · intro p hp
    simp [item_getter, Proc.get, hp]
  · intro p l he
    simp [item_getter, he]

/-- Witness for C6: the spec §8 scenario, sorted by `cpu_percent`
descending. -/
theorem C6_sort_witness :
    (sort_processes_wrapper "cpu_percent" true [sp1, sp2, sp3]).1.Pairwise
      (sortedByField "cpu_percent" true) :=
  (C6_sort "cpu_percent" true [sp1, sp2, sp3] (by decide)).2.1

/-! ### Claim C8 — what the stages do to their input objects -/

/-- C8 counterexample: on the heap holding the single list object
`[hb1, hb2]`, the sort stage (descending by `cpu_percent`) returns the
very address it was given — not a new sequence — and the contents of
that input object have changed to the sorted order, so the stage mutated
its input in place. -/
theorem C8_counterexample :
    (sortStageHeap "cpu_percent" true [[hb1, hb2]] 0).2 = 0
    ∧ Heap.getA (sortStageHeap "cpu_percent" true [[hb1, hb2]] 0).1 0 =
        [hb2, hb1]
    ∧ Heap.getA (sortStageHeap "cpu_percent" true [[hb1, hb2]] 0).1 0 ≠
        Heap.getA [[hb1, hb2]] 0 := by
  have hs : (sort_processes_wrapper "cpu_percent" true [hb1, hb2]).1 =
      [hb2, hb1] := by
    rw [sort_wrapper_out_of_comparable (by decide), mergeSort_pair]
    decide
  have h2 : Heap.getA (sortStageHeap "cpu_percent" true [[hb1, hb2]] 0).1 0 =
      [hb2, hb1] := by
    simp [sortStageHeap, Heap.getA, hs]
  refine ⟨rfl, h2, ?_⟩
  rw [h2]
  decide

/-- C8 (amended): the cap stage leaves every existing object unchanged
and returns a fresh object holding its output, but the sort stage
returns its input object itself (the same address), with that object's
contents replaced in place by the stage output; objects other than the
sort stage's input are untouched. -/
theorem C8_frame (field : String) (reverse : Bool) (max_count : ℕ)
    (σ : Heap) (a : ℕ) (ha : a < σ.length) :
    (∀ b, b < σ.length →
      Heap.getA (capStageHeap max_count σ a).1 b = Heap.getA σ b)
    ∧ (capStageHeap max_count σ a).2 = σ.length
    ∧ a ≠ (capStageHeap max_count σ a).2
    ∧ Heap.getA (capStageHeap max_count σ a).1 (capStageHeap max_count σ a).2
        = max_listing_wrapper max_count (Heap.getA σ a)
    ∧ (sortStageHeap field reverse σ a).2 = a
    ∧ Heap.getA (sortStageHeap field reverse σ a).1 a
        = (sort_processes_wrapper field reverse (Heap.getA σ a)).1
    ∧ (∀ b, b ≠ a →
      Heap.getA (sortStageHeap field reverse σ a).1 b = Heap.getA σ b) := by
  refine ⟨?_, rfl, ?_, ?_, rfl, ?_, ?_⟩
  case refine_2 =>
    rw [show (capStageHeap max_count σ a).2 = σ.length from rfl]
    omega
  · intro b hb
    simp [capStageHeap, Heap.getA, List.getElem?_append_left hb]
  · simp [capStageHeap, Heap.getA, List.getElem?_append_right (le_refl _)]
  · simp [sortStageHeap, Heap.getA, List.getElem?_set_self ha]
  · intro b hb
    simp [sortStageHeap, Heap.getA, List.getElem?_set_ne (Ne.symm hb)]

/-- Witness for C8: the cap stage run on a concrete heap leaves the
input object at address 0 untouched. -/
theorem C8_frame_witness :
    Heap.getA (capStageHeap 2 [[hb1, hb2]] 0).1 0 = Heap.getA [[hb1, hb2]] 0 :=
  (C8_frame "cpu_percent" true 2 [[hb1, hb2]] 0 (by decide)).1 0 (by decide)

/-! ### Claim C1 — the composed pipeline -/

/-- C1 counterexample: a raw snapshot with records for two distinct
users ("A" and "B") of which the current user "A" owns only one, run
through the full composed pipeline with `field=cpu_percent`,
`descending=true`, `maxCount=2`, yields one record and one log entry —
not the two records the claim promises for every multi-user
snapshot. -/
theorem C1_counterexample :
    Proc.get cx1 "username" PyVal.none ≠ Proc.get cx2 "username" PyVal.none
    ∧ pipeline "A" "cpu_percent" true 2 (Except.ok [cx1, cx2]) =
        Except.ok ([cx1], (1, [(PyVal.int 1, PyVal.str "p1")]))
    ∧ (pipelineRun "A" "cpu_percent" true 2 [cx1, cx2]).1.length ≠ 2 := by
  have h1 : filter_by_current_user_spec "A" [cx1, cx2] = [cx1] := by decide
  have h2 : (sort_processes_wrapper "cpu_percent" true [cx1]).1 = [cx1] := by
    rw [sort_wrapper_out_of_comparable (by decide)]
    simp
  refine ⟨by decide, ?_, ?_⟩
  · simp [pipeline, pipelineRun, suppress_errors, suppress_errors_wrapper,
      h1, h2, max_listing_wrapper, log_processes_spec]
    decide
  · simp [pipeline, pipelineRun, suppress_errors, suppress_errors_wrapper,
      h1, h2, max_listing_wrapper, log_processes_spec]

/-- C1 (amended): for every raw snapshot whose records carry numeric
`cpu_percent` keys (as the data model prescribes for well-formed
records) and that contains at least two records owned by the current
user, the composed pipeline (ErrorSuppression around the source, then
UserFilter, Sort, Cap, Logging) with `field=cpu_percent`,
`descending=true`, `maxCount=2` yields exactly 2 records, both owned by
the current user, ordered by descending CPU percent, and the log holds
the count 2 and exactly one (pid, name) entry per returned record —
none for any excluded record. -/
theorem C1_pipeline (current_user : String) (raw : List Proc)
    (hcount : 2 ≤ (filter_by_current_user_spec current_user raw).length)
    (hnum : ∀ p ∈ raw, isNumeric (item_getter "cpu_percent" p) = true) :
    (pipelineRun current_user "cpu_percent" true 2 raw).1.length = 2
    ∧ (∀ p ∈ (pipelineRun current_user "cpu_percent" true 2 raw).1,
        Proc.get p "username" PyVal.none = PyVal.str current_user)
    ∧ (pipelineRun current_user "cpu_percent" true 2 raw).1.Pairwise
        (sortedByField "cpu_percent" true)
    ∧ (pipelineRun current_user "cpu_percent" true 2 raw).2 =
        (2, (pipelineRun current_user "cpu_percent" true 2 raw).1.map
          (fun p => (Proc.get p "pid" PyVal.none, Proc.get p "name" PyVal.none)))
    ∧ pipeline current_user "cpu_percent" true 2 (Except.ok raw) =
        Except.ok (pipelineRun current_user "cpu_percent" true 2 raw) := by
  have hN : ∀ p ∈ filter_by_current_user_spec current_user raw,
      isNumeric (item_getter "cpu_percent" p) = true := by
    intro p hp
    exact hnum p ((List.mem_filter.mp hp).1)
  have hmc : mutuallyComparable
      ((filter_by_current_user_spec current_user raw).map
        (item_getter "cpu_percent")) = true := by
    apply mutuallyComparable_of_forall_numeric
    intro k hk
    rcases List.mem_map.mp hk with ⟨p, hp, rfl⟩
    exact hN p hp
  have hperm := sort_wrapper_perm "cpu_percent" true
    (filter_by_current_user_spec current_user raw)
  have hslen : (sort_processes_wrapper "cpu_percent" true
      (filter_by_current_user_spec current_user raw)).1.length =
      (filter_by_current_user_spec current_user raw).length := hperm.length_eq
  have hout : (pipelineRun current_user "cpu_percent" true 2 raw).1 =
      ((sort_processes_wrapper "cpu_percent" true
        (filter_by_current_user_spec current_user raw)).1).take 2 := rfl
  have hlen2 : (pipelineRun current_user "cpu_percent" true 2 raw).1.length
      = 2 := by
    rw [hout, List.length_take, hslen]
    omega
  refine ⟨hlen2, ?_, ?_, ?_, ?_⟩
  · intro p hp
    rw [hout] at hp
    have hps : p ∈ (sort_processes_wrapper "cpu_percent" true
        (filter_by_current_user_spec current_user raw)).1 :=
      List.take_subset 2 _ hp
    have hpf : p ∈ filter_by_current_user_spec current_user raw :=
      hperm.mem_iff.mp hps
    have := (List.mem_filter.mp hpf).2
    rwa [beq_iff_eq] at this
  · rw [hout]
    exact (sort_wrapper_sorted hmc).sublist (List.take_sublist 2 _)
  · have hlog : (pipelineRun current_user "cpu_percent" true 2 raw).2 =
        ((pipelineRun current_user "cpu_percent" true 2 raw).1.length,
          (pipelineRun current_user "cpu_percent" true 2 raw).1.map
            (fun p => (Proc.get p "pid" PyVal.none,
              Proc.get p "name" PyVal.none))) := rfl
    rw [hlog, hlen2]
  · simp [pipeline, suppress_errors, suppress_errors_wrapper]

/-- Witness for C1: the spec §8 scenario snapshot (users A, B; A owns
two records), current user "A". -/
theorem C1_pipeline_witness :
    (pipelineRun "A" "cpu_percent" true 2 [sp1, sp2, sp3]).1.length = 2 :=
  (C1_pipeline "A" [sp1, sp2, sp3] (by decide) (by decide)).1

end SystemSnapshot
